import Mathlib

/-!
Shallow embedding of the tap-faethm extraction engine
(`tap_faethm/streams.py`, `tap_faethm/tap.py`).

Python dictionaries decoded from JSON are modelled by `JVal`; Python
truthiness by `pyTruthy`; `dict.get(k)` (which returns `None` both when the
key is absent and when it is bound to `null`) by `pyGet`.  The run
configuration `self.config` is modelled by the `Config` structure, one
`Option` field per key the source reads.  Fallible code returns `Except`.
-/

/-- A decoded JSON value, as Python sees it after `response.json()`. -/
inductive JVal where
  | jnull : JVal
  | jbool : Bool → JVal
  | jnum : Int → JVal
  | jstr : String → JVal
  | jarr : List JVal → JVal
  | jobj : List (String × JVal) → JVal
deriving Repr

/-- Python truthiness of a decoded JSON value (`if x:`). -/
def pyTruthy : JVal → Bool
  | JVal.jnull => false
  | JVal.jbool b => b
  | JVal.jnum n => n != 0
  | JVal.jstr s => !s.isEmpty
  | JVal.jarr xs => !xs.isEmpty
  | JVal.jobj fs => !fs.isEmpty

/-- Python `d.get(k)`: `None` (= `jnull`) when the key is absent or the
receiver is not a dict; the stored value otherwise (a stored `null` is
indistinguishable from an absent key, as in Python). -/
def pyGet : JVal → String → JVal
  | JVal.jobj fs, k => (fs.lookup k).getD JVal.jnull
  | _, _ => JVal.jnull

/-- Python `a or b` on decoded values. -/
def pyOr (a b : JVal) : JVal := if pyTruthy a then a else b

/-- Python truthiness of an optional string config value
(`None` and `""` are falsy). -/
def pyTruthyStr : Option String → Bool
  | some s => !s.isEmpty
  | none => false

/-- The run configuration (`self.config`), one field per key the source
reads; `none` models an absent key. -/
structure Config where
  api_base_url : Option String
  api_key : Option String
  country_code : Option String
  page_size : Option Int
  skills_category : Option String
  stream_group : Option String
deriving Repr

/-- Embeds `int(self.config.get("page_size") or 50)`: absent or falsy (`0`)
page size falls back to the default 50. -/
def effPageSize : Option Int → Int
  | some n => if n = 0 then 50 else n
  | none => 50

/-- Embeds `TapFaethmStream.url_base`: `self.config["api_base_url"]` — a `KeyError`
propagates when the key is absent; a present value (even `""`) is returned. -/
def url_base (cfg : Config) : Except String String :=
  match cfg.api_base_url with
  | some u => Except.ok u
  | none => Except.error "KeyError: api_base_url"

/-- Embeds `TapFaethmStream.http_headers`: raises `ValueError` when `api_key` is
absent or empty (falsy); otherwise the three fixed headers. -/
def http_headers (cfg : Config) : Except String (List (String × String)) :=
  match cfg.api_key with
  | some k =>
      if k.isEmpty then Except.error "api_key is required in config"
      else Except.ok
        [("Content-Type", "application/json"),
         ("Accept", "application/json"),
         ("Authorization", "Bearer " ++ k)]
  | none => Except.error "api_key is required in config"

/-- Embeds `TapFaethmStream.get_url_params` (the base class): raises `ValueError`
when `country_code` is absent or empty; otherwise returns the empty
parameter dict. -/
def tapFaethmStream_get_url_params (cfg : Config) :
    Except String (List (String × JVal)) :=
  match cfg.country_code with
  | some cc =>
      if cc.isEmpty then Except.error "country_code is required in config"
      else Except.ok []
  | none => Except.error "country_code is required in config"

/-- Embeds `SkillsCatalogStream.get_url_params`: overrides the base class, performs
NO `country_code` check; adds `limit` and, for a truthy token, `cursor_key`. -/
def skillsCatalog_get_url_params (cfg : Config) (next_page_token : JVal) :
    List (String × JVal) :=
  [("limit", JVal.jnum (effPageSize cfg.page_size))] ++
    (if pyTruthy next_page_token then [("cursor_key", next_page_token)] else [])

/-- Embeds `OccupationsStream.get_url_params`: calls the base class (which checks
`country_code`), then adds `limit` and, for a truthy token, `cursor_key`. -/
def occupations_get_url_params (cfg : Config) (next_page_token : JVal) :
    Except String (List (String × JVal)) :=
  match tapFaethmStream_get_url_params cfg with
  | Except.error e => Except.error e
  | Except.ok params =>
      Except.ok (params ++
        [("limit", JVal.jnum (effPageSize cfg.page_size))] ++
        (if pyTruthy next_page_token then [("cursor_key", next_page_token)]
         else []))

/-- Embeds `OccupationSkillsStream.get_url_params` /
`OccupationDetailsStream.get_url_params`: call the base class (which checks
`country_code`), then add `country_code` with default `"US"`. -/
def occupationDetails_get_url_params (cfg : Config) :
    Except String (List (String × JVal)) :=
  match tapFaethmStream_get_url_params cfg with
  | Except.error e => Except.error e
  | Except.ok params =>
      Except.ok (params ++
        [("country_code", JVal.jstr (cfg.country_code.getD "US"))])

/-- The decoded `skills` page list of `SkillsCatalogStream.get_next_page_token`:
from a dict take `data.get("skills") or []`, a bare list is taken as is
(legacy fallback), anything else gives `[]`. -/
def skillsPage : JVal → JVal
  | JVal.jobj fs => pyOr (pyGet (JVal.jobj fs) "skills") (JVal.jarr [])
  | JVal.jarr xs => JVal.jarr xs
  | _ => JVal.jarr []

/-- Embeds `last_item.get("id") if isinstance(last_item, dict) else None`. -/
def pyLastId : List JVal → JVal
  | xs =>
    match xs.getLast? with
    | some last =>
        match last with
        | JVal.jobj fs => pyGet (JVal.jobj fs) "id"
        | _ => JVal.jnull
    | none => JVal.jnull

/-- Embeds `SkillsCatalogStream.get_next_page_token`.  `data = none` models a
`response.json()` failure (caught, returning `None`).  `jnull` is Python
`None`, i.e. no next page. -/
def skillsCatalog_get_next_page_token (data : Option JVal)
    (page_size_cfg : Option Int) : JVal :=
  match data with
  | none => JVal.jnull
  | some d =>
    match skillsPage d with
    | JVal.jarr xs =>
        if xs.length = 0 then JVal.jnull
        else if (xs.length : Int) < effPageSize page_size_cfg then JVal.jnull
        else pyLastId xs
    | _ => JVal.jnull

/-- Embeds `records = data if isinstance(data, list) else []` in
`OccupationsStream.get_next_page_token`. -/
def occupationsPage : JVal → List JVal
  | JVal.jarr xs => xs
  | _ => []

/-- Embeds `OccupationsStream.get_next_page_token`.  A non-list body yields
`records = []`; `records[-1]` on an empty list and `.get` on a non-dict
raise, are caught, and give `None` (the `pyLastId` fallback). -/
def occupations_get_next_page_token (data : Option JVal)
    (page_size_cfg : Option Int) : JVal :=
  match data with
  | none => JVal.jnull
  | some d =>
    if ((occupationsPage d).length : Int) < effPageSize page_size_cfg then
      JVal.jnull
    else pyLastId (occupationsPage d)

/-- Embeds `IndustriesStream.get_child_context`: a falsy `record.get("id")`
(absent, `null`, or `""`) raises `KeyError("Industry Id is missing")`, which
the `except` clause logs and re-raises; then a missing `country_code`
raises `ValueError`; otherwise the child context dict. -/
def industries_get_child_context (record : JVal) (cfg : Config) :
    Except String (List (String × JVal)) :=
  if pyTruthy (pyGet record "id") then
    match cfg.country_code with
    | some cc =>
        if cc.isEmpty then Except.error "country_code is required in config"
        else Except.ok
          [("industry_id", pyGet record "id"), ("country_code", JVal.jstr cc)]
    | none => Except.error "country_code is required in config"
  else Except.error "KeyError: Industry Id is missing"

/-- Embeds `OccupationsStream.get_child_context`: same shape as the industries
version, with the `occupation_id` key and message. -/
def occupations_get_child_context (record : JVal) (cfg : Config) :
    Except String (List (String × JVal)) :=
  if pyTruthy (pyGet record "id") then
    match cfg.country_code with
    | some cc =>
        if cc.isEmpty then Except.error "country_code is required in config"
        else Except.ok
          [("occupation_id", pyGet record "id"), ("country_code", JVal.jstr cc)]
    | none => Except.error "country_code is required in config"
  else Except.error "KeyError: Occupation Id is missing"

/-- ASCII lowering of one character; models Python `str.lower()` on the
ASCII stream-group names the source uses. -/
def lowerChar (c : Char) : Char :=
  if 65 ≤ c.toNat ∧ c.toNat ≤ 90 then Char.ofNat (c.toNat + 32) else c

/-- ASCII `str.lower()`. -/
def lowerStr (s : String) : String := String.mk (s.data.map lowerChar)

/-- A raw skill record as decoded from the API.  Only the fields the
enrichment logic can touch are tracked: the payload id and whatever
`country_code` the API did (or did not) return.  `get_records` only ADDS
the keys `category`, `industry_id`/`occupation_id` and `rank`. -/
structure RawSkill where
  sid : String
  country_code : Option String
deriving DecidableEq, Repr

/-- An emitted skill record after enrichment: the raw payload plus the
`category`, parent-reference (`industry_id`/`occupation_id`, modelled as
`parent_id`) and `rank` keys the code sets. -/
structure SkillOut where
  sid : String
  country_code : Option String
  category : String
  parent_id : String
  rank : Nat
deriving DecidableEq, Repr

/-- Embeds `category_key = f"{industry_id}_{category}"` (identically
`f"{occupation_id}_{category}"` in the occupations copy). -/
def counterKey (parent_id category : String) : String :=
  parent_id ++ "_" ++ category

/-- Embeds `categories = ["emerging", "trending", "declining"]` (identical class
attribute of `IndustrySkillsStream` and `OccupationSkillsStream`). -/
def skillCategories : List String := ["emerging", "trending", "declining"]

/-- Embeds `chosen = self.config.get("skills_category");
categories = [chosen] if chosen else self.categories` — a falsy choice
(absent or `""`) keeps the full fixed list. -/
def categoriesFor : Option String → List String
  | some c => if c.isEmpty then skillCategories else [c]
  | none => skillCategories

/-- The inner `for record in super().get_records(...)` loop body for one
category: each record gets `category` and the parent id set, the
per-`(parent, category)` counter (a dict defaulting to 0) is incremented,
and its new value becomes the record's `rank`. -/
def processCategory (parent_id category : String) (raws : List RawSkill)
    (counters : String → Nat) : List SkillOut × (String → Nat) :=
  match raws with
  | [] => ([], counters)
  | r :: rest =>
      let n := counters (counterKey parent_id category) + 1
      let counters1 := Function.update counters (counterKey parent_id category) n
      let step := processCategory parent_id category rest counters1
      (⟨r.sid, r.country_code, category, parent_id, n⟩ :: step.1, step.2)

/-- The outer `for category in categories` loop of `get_records`:
categories are fetched and processed strictly in list order, threading the
counter table.  `fetch pid cat` is the record list the (paginated) REST
helper returns for `/…/{pid}/skills/{cat}`. -/
def runCategories (fetch : String → String → List RawSkill)
    (parent_id : String) (cats : List String) (counters : String → Nat) :
    List SkillOut × (String → Nat) :=
  match cats with
  | [] => ([], counters)
  | c :: cs =>
      let step := processCategory parent_id c (fetch parent_id c) counters
      let rest := runCategories fetch parent_id cs step.2
      (step.1 ++ rest.1, rest.2)

/-- Embeds `IndustrySkillsStream.get_records` for one parent context, and
identically `OccupationSkillsStream.get_records` (the two bodies are
textually the same up to the parent field name, modelled as `parent_id`). -/
def skills_get_records (fetch : String → String → List RawSkill)
    (skills_category : Option String) (parent_id : String)
    (counters : String → Nat) : List SkillOut × (String → Nat) :=
  runCategories fetch parent_id (categoriesFor skills_category) counters

/-- One run of a skills stream instance: the SDK invokes `get_records`
once per parent context, in parent order, against the same stream
instance, so `self._skills_extraction_counters` (initialised to `{}` in
`__init__`) is threaded through every invocation and never reset. -/
def runSkillParents (fetch : String → String → List RawSkill)
    (skills_category : Option String) (parents : List String)
    (counters : String → Nat) : List SkillOut × (String → Nat) :=
  match parents with
  | [] => ([], counters)
  | p :: ps =>
      let step := skills_get_records fetch skills_category p counters
      let rest := runSkillParents fetch skills_category ps step.2
      (step.1 ++ rest.1, rest.2)

/-- The fresh counter dict `{}` of `__init__`: every key absent, i.e.
every counter reads 0. -/
def zeroCounters : String → Nat := fun _ => 0

/-- Emitted records of one `(parent_id, category)` pair, in emission
order. -/
def pairFilter (l : List SkillOut) (pid cat : String) : List SkillOut :=
  l.filter (fun r => r.parent_id == pid && r.category == cat)

/-- The rank sequence of one `(parent_id, category)` pair, in emission
order. -/
def ranksOf (l : List SkillOut) (pid cat : String) : List Nat :=
  (pairFilter l pid cat).map (fun r => r.rank)

/-- Number of emitted records of one `(parent_id, category)` pair. -/
def countPair (l : List SkillOut) (pid cat : String) : Nat :=
  (pairFilter l pid cat).length

/-- A raw occupation-details record as decoded from the API; only the
fields the enrichment touches are tracked. -/
structure RawDetail where
  did : String
  country_code : Option String
deriving DecidableEq, Repr

/-- An emitted occupation-details record. -/
structure DetailOut where
  did : String
  country_code : Option String
deriving DecidableEq, Repr

/-- The exceptions that can cross a fetch boundary: the fatal API error the
transport validation raises for a non-2xx status, and the
`RuntimeError("Skip 403")` signal `OccupationDetailsStream` uses. -/
inductive ApiError where
  | fatalStatus : Nat → ApiError
  | skipSignal : ApiError
deriving DecidableEq, Repr

/-- Modelled from the spec: the transport collaborator's default response
validation (`singer-sdk` `RESTStream.validate_response`, not part of this
repository) — a non-2xx status raises a fatal API error that propagates to
the caller (spec §4.3: "All other non-2xx statuses → fatal"). -/
def base_validate_response (status : Nat) : Except ApiError Unit :=
  if 200 ≤ status ∧ status < 300 then Except.ok ()
  else Except.error (ApiError.fatalStatus status)

/-- Embeds `OccupationDetailsStream.validate_response`: a 403 logs a warning and
raises `RuntimeError("Skip 403")`; every other status goes through the base
validation.  (The logged id is `response.url.split('/')[-1]`, modelled as
the occupation id.) -/
def occupationDetails_validate_response (status : Nat)
    (occupation_id : String) : Except ApiError Unit × List String :=
  if status = 403 then
    (Except.error ApiError.skipSignal,
     ["Received 403 Forbidden for occupation_id: " ++ occupation_id ++
      ". Skipping..."])
  else (base_validate_response status, [])

/-- A child fetch of `IndustrySkillsStream` / `OccupationSkillsStream`:
these streams define no `validate_response` override and wrap no handler
around `super().get_records(...)`, so a non-2xx response propagates out of
`get_records` unmodified. -/
def skills_child_fetch (status : Nat) (body : List RawSkill) :
    Except ApiError (List RawSkill) :=
  match base_validate_response status with
  | Except.ok _ => Except.ok body
  | Except.error e => Except.error e

/-- Embeds `OccupationDetailsStream.get_records`: on success every record gets
`country_code = self.config.get("country_code", "US")`; the
`except RuntimeError` arm silently swallows the `Skip 403` signal; the
`except Exception` arm catches EVERY other fetch error (the fatal API error
of any non-2xx status, 404 and 5xx alike), logs
`"Error fetching details for occupation_id {id}: {e}"` and returns zero
records.  `libErrMsg` models `str(e)` of the library exception. -/
def occupationDetails_get_records (cfg : Config) (occupation_id : String)
    (status : Nat) (body : List RawDetail) (libErrMsg : String) :
    List DetailOut × List String :=
  match occupationDetails_validate_response status occupation_id with
  | (Except.ok _, logs) =>
      (body.map (fun r => ⟨r.did, some (cfg.country_code.getD "US")⟩), logs)
  | (Except.error ApiError.skipSignal, logs) => ([], logs)
  | (Except.error (ApiError.fatalStatus _), logs) =>
      ([], logs ++ ["Error fetching details for occupation_id " ++
        occupation_id ++ ": " ++ libErrMsg])

/-- A root (industry / occupation) record; only the fields `post_process`
touches are tracked. -/
structure RootRecord where
  rid : String
  country_code : Option String
deriving DecidableEq, Repr

/-- Embeds `IndustriesStream.post_process` / `OccupationsStream.post_process`:
stamp the configured `country_code` onto the root record when it is
configured (truthy); otherwise leave the row unchanged. -/
def roots_post_process (cfg : Config) (row : RootRecord) : RootRecord :=
  match cfg.country_code with
  | some cc => if cc.isEmpty then row else ⟨row.rid, some cc⟩
  | none => row

/-- Embeds `STREAM_GROUPS` of `tap.py`: the registered stream classes per group,
in registration order.  The four industry-group classes are the ones
`tap.py` imports; no occupation stream class is registered in any group. -/
def STREAM_GROUPS : List (String × List String) :=
  [("industry_skills",
    ["IndustriesStream", "EmergingSkillsStream", "TrendingSkillsStream",
     "DecliningSkillsStream"]),
   ("skill_list", ["SkillsCatalogStream"])]

/-- Embeds `TapFaethm.discover_streams`:
`group = (self.config.get("stream_group") or "all").lower()`; `"all"` sums
every group's class list in registration order
(`sum(STREAM_GROUPS.values(), [])`); otherwise
`STREAM_GROUPS.get(group, [])`. -/
def discover_streams (cfg : Config) : List String :=
  let group := lowerStr (match cfg.stream_group with
    | some g => if g.isEmpty then "all" else g
    | none => "all")
  if group = "all" then (STREAM_GROUPS.map Prod.snd).flatten
  else (STREAM_GROUPS.lookup group).getD []

/-- Embeds `RATE_LIMIT_DELAY = 1  # 1 seconds between requests`. -/
def RATE_LIMIT_DELAY : Nat := 1

/-- Abstract sequential timeline of `request_decorator`: the wrapper runs
`time.sleep(RATE_LIMIT_DELAY)` and only then issues the request.  Given the
current clock and the list of request service durations,
`wrappedStartTimes delay now ds` is the start instant of each request of
the (single-threaded) run. -/
def wrappedStartTimes (delay : Nat) : Nat → List Nat → List Nat
  | _, [] => []
  | now, d :: ds => (now + delay) :: wrappedStartTimes delay (now + delay + d) ds

/-! ### Helper lemmas about the skills sequencer -/

theorem processCategory_snd (pid cat : String) (raws : List RawSkill) :
    ∀ (m : String → Nat) (k : String),
      (processCategory pid cat raws m).2 k =
        if k = counterKey pid cat then m k + raws.length else m k := by
  induction raws with
  | nil => intro m k; simp [processCategory]
  | cons r rest ih =>
      intro m k
      simp only [processCategory]
      rw [ih]
      by_cases hk : k = counterKey pid cat
      · subst hk
        simp [Function.update_same, List.length_cons]
        omega
      · simp [hk, Function.update_noteq hk]

theorem processCategory_ranks (pid cat : String) (raws : List RawSkill) :
    ∀ m : String → Nat,
      ((processCategory pid cat raws m).1.map (fun r => r.rank)) =
        List.range' (m (counterKey pid cat) + 1) raws.length := by
  induction raws with
  | nil => intro m; simp [processCategory]
  | cons r rest ih =>
      intro m
      simp only [processCategory, List.map_cons, List.length_cons]
      rw [ih, Function.update_same, List.range'_succ]

theorem processCategory_mem (pid cat : String) (raws : List RawSkill) :
    ∀ m : String → Nat, ∀ r ∈ (processCategory pid cat raws m).1,
      r.parent_id = pid ∧ r.category = cat := by
  induction raws with
  | nil => intro m r hr; simp [processCategory] at hr
  | cons x rest ih =>
      intro m r hr
      simp only [processCategory, List.mem_cons] at hr
      rcases hr with rfl | hr
      · exact ⟨rfl, rfl⟩
      · exact ih _ r hr

theorem processCategory_country (pid cat : String) (raws : List RawSkill) :
    ∀ m : String → Nat,
      ((processCategory pid cat raws m).1.map (fun r => r.country_code)) =
        raws.map (fun r => r.country_code) := by
  induction raws with
  | nil => intro m; simp [processCategory]
  | cons x rest ih =>
      intro m
      simp only [processCategory, List.map_cons]
      rw [ih]

theorem processCategory_length (pid cat : String) (raws : List RawSkill) :
    ∀ m : String → Nat, (processCategory pid cat raws m).1.length = raws.length := by
  induction raws with
  | nil => intro m; simp [processCategory]
  | cons x rest ih =>
      intro m
      simp only [processCategory, List.length_cons]
      rw [ih]

theorem pairFilter_append (l1 l2 : List SkillOut) (pid cat : String) :
    pairFilter (l1 ++ l2) pid cat = pairFilter l1 pid cat ++ pairFilter l2 pid cat :=
  List.filter_append _ _

theorem pairFilter_all_eq (l : List SkillOut) (pid cat : String)
    (h : ∀ r ∈ l, r.parent_id = pid ∧ r.category = cat) :
    pairFilter l pid cat = l := by
  unfold pairFilter
  rw [List.filter_eq_self]
  intro r hr
  obtain ⟨h1, h2⟩ := h r hr
  simp [h1, h2]

theorem pairFilter_all_ne (l : List SkillOut) (pid cat p c : String)
    (h : ∀ r ∈ l, r.parent_id = pid ∧ r.category = cat)
    (hne : ¬(p = pid ∧ c = cat)) :
    pairFilter l p c = [] := by
  unfold pairFilter
  rw [List.filter_eq_nil_iff]
  intro r hr
  obtain ⟨h1, h2⟩ := h r hr
  subst h1 h2
  intro hcontra
  simp only [Bool.and_eq_true, beq_iff_eq] at hcontra
  exact hne ⟨hcontra.1.symm, hcontra.2.symm⟩

theorem pairFilter_cat_notin (l : List SkillOut) (cats : List String)
    (h : ∀ r ∈ l, r.category ∈ cats) (p c : String) (hc : c ∉ cats) :
    pairFilter l p c = [] := by
  unfold pairFilter
  rw [List.filter_eq_nil_iff]
  intro r hr
  simp only [Bool.and_eq_true, beq_iff_eq, not_and]
  intro _ hcat
  exact hc (hcat ▸ h r hr)

/-- Splitting a character list at an underscore whose right part is
underscore-free is unambiguous. -/
theorem underscore_split_inj : ∀ (l1 l2 d1 d2 : List Char), '_' ∉ d1 → '_' ∉ d2 →
    l1 ++ '_' :: d1 = l2 ++ '_' :: d2 → l1 = l2 ∧ d1 = d2 := by
  intro l1
  induction l1 with
  | nil =>
      intro l2 d1 d2 h1 h2 h
      cases l2 with
      | nil => simpa using h
      | cons b t2 =>
          simp only [List.nil_append, List.cons_append, List.cons.injEq] at h
          exfalso
          apply h1
          rw [h.2]
          simp
  | cons a t1 ih =>
      intro l2 d1 d2 h1 h2 h
      cases l2 with
      | nil =>
          simp only [List.nil_append, List.cons_append, List.cons.injEq] at h
          exfalso
          apply h2
          rw [← h.2]
          simp
      | cons b t2 =>
          simp only [List.cons_append, List.cons.injEq] at h
          obtain ⟨he, hd⟩ := ih t2 d1 d2 h1 h2 h.2
          exact ⟨by rw [h.1, he], hd⟩

theorem counterKey_data (p c : String) :
    (counterKey p c).data = p.data ++ '_' :: c.data := by
  simp [counterKey]

/-- The counter key determines the `(parent_id, category)` pair. -/
def KeyInj (cats : List String) : Prop :=
  ∀ p p' c c', c ∈ cats → c' ∈ cats →
    counterKey p c = counterKey p' c' → p = p' ∧ c = c'

/-- Within one run the categories are either the three fixed
underscore-free names or the single configured category; in both cases the
key `f"{parent_id}_{category}"` is injective on the pairs in scope. -/
theorem keyInj_categoriesFor (sc : Option String) : KeyInj (categoriesFor sc) := by
  have hfixed : KeyInj skillCategories := by
    intro p p' c c' hc hc' heq
    have hdata := congrArg String.data heq
    rw [counterKey_data, counterKey_data] at hdata
    have hnc : '_' ∉ c.data := by
      simp only [skillCategories, List.mem_cons, List.not_mem_nil, or_false] at hc
      rcases hc with rfl | rfl | rfl <;> decide
    have hnc' : '_' ∉ c'.data := by
      simp only [skillCategories, List.mem_cons, List.not_mem_nil, or_false] at hc'
      rcases hc' with rfl | rfl | rfl <;> decide
    obtain ⟨hp, hc2⟩ := underscore_split_inj _ _ _ _ hnc hnc' hdata
    exact ⟨String.ext hp, String.ext hc2⟩
  cases sc with
  | none => exact hfixed
  | some c0 =>
      by_cases h0 : c0.isEmpty
      · simpa [categoriesFor, h0] using hfixed
      · intro p p' c c' hc hc' heq
        simp only [categoriesFor, h0, Bool.false_eq_true, if_false,
          List.mem_singleton] at hc hc'
        subst hc hc'
        have hdata := congrArg String.data heq
        rw [counterKey_data, counterKey_data] at hdata
        exact ⟨String.ext (List.append_cancel_right hdata), rfl⟩

/-- The run invariant tying the counter table to the emitted records:
every emitted record's category is in scope, each in-scope counter equals
the number of records emitted so far for its pair, and each pair's rank
sequence is exactly `1, …, N`. -/
structure CounterInv (cats : List String) (m : String → Nat)
    (E : List SkillOut) : Prop where
  cat_mem : ∀ r ∈ E, r.category ∈ cats
  count_eq : ∀ p c, c ∈ cats → m (counterKey p c) = countPair E p c
  ranks_eq : ∀ p c, c ∈ cats → ranksOf E p c = List.range' 1 (countPair E p c)

theorem CounterInv.init (cats : List String) : CounterInv cats zeroCounters [] := by
  refine ⟨?_, ?_, ?_⟩
  · intro r hr; simp at hr
  · intro p c _; rfl
  · intro p c _; rfl

theorem CounterInv.step (cats : List String) (hinj : KeyInj cats)
    (m : String → Nat) (E : List SkillOut) (inv : CounterInv cats m E)
    (pid cat : String) (hcat : cat ∈ cats) (raws : List RawSkill) :
    CounterInv cats (processCategory pid cat raws m).2
      (E ++ (processCategory pid cat raws m).1) := by
  have hmem := processCategory_mem pid cat raws m
  have houts_eq : pairFilter (processCategory pid cat raws m).1 pid cat =
      (processCategory pid cat raws m).1 := pairFilter_all_eq _ _ _ hmem
  have houts_len : (processCategory pid cat raws m).1.length = raws.length :=
    processCategory_length pid cat raws m
  refine ⟨?_, ?_, ?_⟩
  · intro r hr
    rcases List.mem_append.mp hr with hr | hr
    · exact inv.cat_mem r hr
    · exact (hmem r hr).2 ▸ hcat
  · intro p c hc
    rw [processCategory_snd]
    unfold countPair
    rw [pairFilter_append]
    by_cases hk : counterKey p c = counterKey pid cat
    · obtain ⟨rfl, rfl⟩ := hinj p pid c cat hc hcat hk
      rw [if_pos rfl, houts_eq, List.length_append, houts_len]
      have := inv.count_eq p c hc
      unfold countPair at this
      omega
    · rw [if_neg hk]
      have hne : ¬(p = pid ∧ c = cat) := by
        rintro ⟨rfl, rfl⟩; exact hk rfl
      rw [pairFilter_all_ne _ _ _ _ _ hmem hne, List.append_nil]
      exact inv.count_eq p c hc
  · intro p c hc
    unfold ranksOf countPair
    rw [pairFilter_append, List.map_append, List.length_append]
    by_cases hpair : p = pid ∧ c = cat
    · obtain ⟨rfl, rfl⟩ := hpair
      rw [houts_eq]
      have hr := processCategory_ranks p c raws m
      rw [hr, houts_len]
      have hbase := inv.ranks_eq p c hc
      unfold ranksOf countPair at hbase
      rw [hbase]
      have hcount := inv.count_eq p c hc
      unfold countPair at hcount
      rw [← hcount]
      have := List.range'_append 1 (m (counterKey p c)) raws.length 1
      simp only [one_mul] at this
      rw [Nat.add_comm 1 (m (counterKey p c))] at this
      rw [this, Nat.add_comm raws.length (m (counterKey p c))]
    · rw [pairFilter_all_ne _ _ _ _ _ hmem hpair]
      simp only [List.map_nil, List.append_nil, List.length_nil, Nat.add_zero]
      exact inv.ranks_eq p c hc

theorem CounterInv.runCats (cats : List String) (hinj : KeyInj cats)
    (fetch : String → String → List RawSkill) (pid : String) :
    ∀ (cs : List String), (∀ c ∈ cs, c ∈ cats) →
      ∀ (m : String → Nat) (E : List SkillOut), CounterInv cats m E →
      CounterInv cats (runCategories fetch pid cs m).2
        (E ++ (runCategories fetch pid cs m).1) := by
  intro cs
  induction cs with
  | nil =>
      intro _ m E inv
      simpa [runCategories] using inv
  | cons c cs ih =>
      intro hsub m E inv
      have hc : c ∈ cats := hsub c (List.mem_cons_self c cs)
      have hstep := CounterInv.step cats hinj m E inv pid c hc (fetch pid c)
      have hrest := ih (fun x hx => hsub x (List.mem_cons_of_mem c hx)) _ _ hstep
      simpa [runCategories, List.append_assoc] using hrest

theorem CounterInv.runAll (sc : Option String)
    (fetch : String → String → List RawSkill) :
    ∀ (ps : List String) (m : String → Nat) (E : List SkillOut),
      CounterInv (categoriesFor sc) m E →
      CounterInv (categoriesFor sc) (runSkillParents fetch sc ps m).2
        (E ++ (runSkillParents fetch sc ps m).1) := by
  intro ps
  induction ps with
  | nil =>
      intro m E inv
      simpa [runSkillParents] using inv
  | cons p ps ih =>
      intro m E inv
      have hstep := CounterInv.runCats (categoriesFor sc)
        (keyInj_categoriesFor sc) fetch p (categoriesFor sc)
        (fun _ hx => hx) m E inv
      have hrest := ih _ _ hstep
      simpa [runSkillParents, skills_get_records, List.append_assoc] using hrest

/-- In a list satisfying the run invariants, a suffix's ranks for a pair
continue from the prefix's count for that pair instead of restarting. -/
theorem ranksOf_append_inv (cats : List String) (E1 E2 : List SkillOut)
    (h1 : ∀ p c, c ∈ cats → ranksOf E1 p c = List.range' 1 (countPair E1 p c))
    (h12 : ∀ p c, c ∈ cats →
      ranksOf (E1 ++ E2) p c = List.range' 1 (countPair (E1 ++ E2) p c))
    (hcatm : ∀ r ∈ E2, r.category ∈ cats) (p c : String) :
    ranksOf E2 p c = List.range' (countPair E1 p c + 1) (countPair E2 p c) := by
  by_cases hc : c ∈ cats
  · have ha := h12 p c hc
    have hb := h1 p c hc
    unfold ranksOf countPair at ha hb ⊢
    rw [pairFilter_append, List.map_append, List.length_append, hb] at ha
    have hsplit := List.range'_append 1 (pairFilter E1 p c).length
      (pairFilter E2 p c).length 1
    simp only [one_mul] at hsplit
    rw [Nat.add_comm (pairFilter E2 p c).length (pairFilter E1 p c).length]
      at hsplit
    rw [← hsplit] at ha
    have hcl := List.append_cancel_left ha
    rw [hcl, Nat.add_comm 1 (pairFilter E1 p c).length]
  · have h2nil : pairFilter E2 p c = [] := pairFilter_cat_notin _ _ hcatm p c hc
    unfold ranksOf countPair
    rw [h2nil]
    rfl

/-- C1 (confirmed): for every parent and category, the ranks assigned to
the emitted records of that `(parent_id, category)` pair are exactly
`1, 2, …, N` in emission order (`N` = number of records emitted for the
pair, i.e. all records the API returned for it over the whole run), and
distinct in-scope pairs never share a rank counter: their counter keys
differ, whether the parents differ, the categories differ, or both. -/
theorem C1_rank_sequences_exact (fetch : String → String → List RawSkill)
    (sc : Option String) (parents : List String) (p c : String) :
    ranksOf (runSkillParents fetch sc parents zeroCounters).1 p c =
      List.range'
        1 (countPair (runSkillParents fetch sc parents zeroCounters).1 p c) ∧
    (∀ p' c', c ∈ categoriesFor sc → c' ∈ categoriesFor sc →
      (p ≠ p' ∨ c ≠ c') → counterKey p c ≠ counterKey p' c') := by
  have hinv := CounterInv.runAll sc fetch parents zeroCounters []
    (CounterInv.init _)
  rw [List.nil_append] at hinv
  constructor
  · by_cases hc : c ∈ categoriesFor sc
    · exact hinv.ranks_eq p c hc
    · have h1 : pairFilter (runSkillParents fetch sc parents zeroCounters).1
          p c = [] := pairFilter_cat_notin _ _ hinv.cat_mem p c hc
      unfold ranksOf countPair
      rw [h1]
      rfl
  · intro p' c' hc hc' hne heq
    obtain ⟨hp, hcc⟩ := keyInj_categoriesFor sc p p' c c' hc hc' heq
    rcases hne with h | h
    · exact h hp
    · exact h hcc

/-- Witness for C1: a concrete two-record fetch yields ranks `[1, 2]`, and
the counters of two distinct pairs are distinct. -/
theorem C1_rank_sequences_exact_witness :
    ranksOf (runSkillParents
        (fun _ c => if c = "emerging" then [⟨"s1", none⟩, ⟨"s2", none⟩] else [])
        none ["I1"] zeroCounters).1 "I1" "emerging" = [1, 2] ∧
    counterKey "I1" "emerging" ≠ counterKey "I2" "emerging" := by
  have h := C1_rank_sequences_exact
    (fun _ c => if c = "emerging" then [⟨"s1", none⟩, ⟨"s2", none⟩] else [])
    none ["I1"] "I1" "emerging"
  constructor
  · rw [h.1]
    decide
  · exact h.2 "I2" "emerging" (by decide) (by decide) (Or.inl (by decide))

/-- C10 (confirmed): the counter table is initialised once in `__init__`
and threaded through every `get_records` invocation of the stream
instance, never reset: when parent `p` is processed again after earlier
parents `ps` (for example the same parent id appearing twice), the new
records of pair `(p, c)` get ranks continuing at the pair's previous
count + 1 rather than restarting at 1. -/
theorem C10_counters_persist (fetch : String → String → List RawSkill)
    (sc : Option String) (ps : List String) (p c : String) :
    ranksOf (skills_get_records fetch sc p
        (runSkillParents fetch sc ps zeroCounters).2).1 p c =
      List.range'
        (countPair (runSkillParents fetch sc ps zeroCounters).1 p c + 1)
        (countPair (skills_get_records fetch sc p
          (runSkillParents fetch sc ps zeroCounters).2).1 p c) := by
  have hinv1 := CounterInv.runAll sc fetch ps zeroCounters []
    (CounterInv.init _)
  rw [List.nil_append] at hinv1
  have hinv2 := CounterInv.runCats (categoriesFor sc)
    (keyInj_categoriesFor sc) fetch p (categoriesFor sc) (fun _ hx => hx)
    (runSkillParents fetch sc ps zeroCounters).2
    (runSkillParents fetch sc ps zeroCounters).1 hinv1
  exact ranksOf_append_inv (categoriesFor sc)
    (runSkillParents fetch sc ps zeroCounters).1
    (skills_get_records fetch sc p (runSkillParents fetch sc ps zeroCounters).2).1
    hinv1.ranks_eq hinv2.ranks_eq
    (fun r hr => hinv2.cat_mem r (List.mem_append.mpr (Or.inr hr))) p c

theorem runCategories_mem (fetch : String → String → List RawSkill)
    (pid : String) : ∀ (cs : List String) (m : String → Nat),
    ∀ r ∈ (runCategories fetch pid cs m).1,
      r.parent_id = pid ∧ r.category ∈ cs := by
  intro cs
  induction cs with
  | nil => intro m r hr; simp [runCategories] at hr
  | cons c cs ih =>
      intro m r hr
      simp only [runCategories] at hr
      rcases List.mem_append.mp hr with hr | hr
      · obtain ⟨h1, h2⟩ := processCategory_mem pid c (fetch pid c) m r hr
        exact ⟨h1, h2 ▸ List.mem_cons_self c cs⟩
      · obtain ⟨h1, h2⟩ := ih _ r hr
        exact ⟨h1, List.mem_cons_of_mem c h2⟩

theorem runCategories_country (fetch : String → String → List RawSkill)
    (pid : String) : ∀ (cs : List String) (m : String → Nat),
    (runCategories fetch pid cs m).1.map (fun r => r.country_code) =
      (cs.map (fun c => (fetch pid c).map (fun r => r.country_code))).flatten := by
  intro cs
  induction cs with
  | nil => intro m; simp [runCategories]
  | cons c cs ih =>
      intro m
      simp only [runCategories, List.map_cons, List.map_append,
        List.flatten_cons]
      rw [processCategory_country, ih]

/-- C3 counterexample: with `country_code = "US"` configured, an industry
skill record fetched without a `country_code` field is emitted without
one — the skills `get_records` never reads the configured country code
(it is not even an input of the enrichment), so the emitted record does
not carry the configured value. -/
theorem C3_counterexample :
    (runSkillParents (fun _ _ => [⟨"s1", none⟩]) none ["I1"] zeroCounters).1 =
      [⟨"s1", none, "emerging", "I1", 1⟩, ⟨"s1", none, "trending", "I1", 1⟩,
       ⟨"s1", none, "declining", "I1", 1⟩] ∧
    (⟨"s1", none, "emerging", "I1", 1⟩ : SkillOut).country_code ≠ some "US" := by
  constructor
  · decide
  · decide

/-- C3 amended: every child record carries its parent's id in its
parent-reference field; OccupationDetail records are stamped with the
configured `country_code` (default `"US"`); root records are stamped by
`post_process` when `country_code` is configured; but skill child records
keep exactly the `country_code` the API returned (no stamping). -/
theorem C3_context_stamping_amended (fetch : String → String → List RawSkill)
    (sc : Option String) (pid : String) (m : String → Nat) (cfg : Config)
    (oid : String) (body : List RawDetail) (msg : String) (row : RootRecord) :
    (∀ r ∈ (skills_get_records fetch sc pid m).1, r.parent_id = pid) ∧
    ((skills_get_records fetch sc pid m).1.map (fun r => r.country_code) =
      ((categoriesFor sc).map
        (fun c => (fetch pid c).map (fun r => r.country_code))).flatten) ∧
    (∀ r ∈ (occupationDetails_get_records cfg oid 200 body msg).1,
      r.country_code = some (cfg.country_code.getD "US")) ∧
    (pyTruthyStr cfg.country_code = true →
      (roots_post_process cfg row).country_code = cfg.country_code) := by
  refine ⟨?_, ?_, ?_, ?_⟩
  · intro r hr
    exact (runCategories_mem fetch pid (categoriesFor sc) m r hr).1
  · exact runCategories_country fetch pid (categoriesFor sc) m
  · intro r hr
    simp only [occupationDetails_get_records, occupationDetails_validate_response,
      base_validate_response] at hr
    norm_num at hr
    obtain ⟨a, _, ha⟩ := hr
    rw [← ha]
  · intro htr
    match hcc : cfg.country_code with
    | none => rw [hcc] at htr; simp [pyTruthyStr] at htr
    | some cc =>
        rw [hcc] at htr
        simp only [pyTruthyStr, Bool.not_eq_true'] at htr
        simp [roots_post_process, hcc, htr]

/-- Witness for C3 amended: with `country_code = "FR"` configured, the root
record and the occupation-details record are stamped with `"FR"`. -/
theorem C3_context_stamping_amended_witness :
    (roots_post_process ⟨none, none, some "FR", none, none, none⟩
      ⟨"I1", none⟩).country_code = some "FR" ∧
    (⟨"d1", some "FR"⟩ : DetailOut).country_code = some "FR" := by
  have h := C3_context_stamping_amended (fun _ _ => []) none "I1" zeroCounters
    ⟨none, none, some "FR", none, none, none⟩ "O1" [⟨"d1", some "XX"⟩] ""
    ⟨"I1", none⟩
  exact ⟨h.2.2.2 (by decide), h.2.2.1 ⟨"d1", some "FR"⟩ (by decide)⟩

/-- C2 counterexample: a full page (50 records, default limit 50) whose
last record carries no id yields NO next cursor, although the page is
neither empty nor shorter than the limit — the "exactly when" of the
claim fails. -/
theorem C2_counterexample :
    skillsCatalog_get_next_page_token
      (some (JVal.jarr (List.replicate 50 (JVal.jobj [])))) none = JVal.jnull ∧
    (List.replicate 50 (JVal.jobj [] : JVal)).length = 50 ∧
    ¬((50 : Int) < effPageSize none) := by
  refine ⟨rfl, by simp, by decide⟩

/-- C2 amended: the resolver returns no cursor when the decoded page list
is empty or shorter than the configured limit (default 50); for a full
page it returns the id field of the page's LAST record — which is itself
no cursor when that record is not an object or has no id; and a truthy
cursor is sent as the `cursor_key` parameter of the following request. -/
theorem C2_next_cursor_amended (d : JVal) (psCfg : Option Int)
    (xs ys : List JVal) (cfg : Config) (tok : JVal) :
    effPageSize none = 50 ∧
    (skillsPage d = JVal.jarr xs →
      ((xs.length = 0 ∨ (xs.length : Int) < effPageSize psCfg) →
        skillsCatalog_get_next_page_token (some d) psCfg = JVal.jnull) ∧
      (¬xs.length = 0 → ¬((xs.length : Int) < effPageSize psCfg) →
        skillsCatalog_get_next_page_token (some d) psCfg = pyLastId xs)) ∧
    (occupationsPage d = ys →
      (((ys.length : Int) < effPageSize psCfg) →
        occupations_get_next_page_token (some d) psCfg = JVal.jnull) ∧
      (¬((ys.length : Int) < effPageSize psCfg) →
        occupations_get_next_page_token (some d) psCfg = pyLastId ys)) ∧
    (pyTruthy tok = true →
      ("cursor_key", tok) ∈ skillsCatalog_get_url_params cfg tok) := by
  refine ⟨rfl, ?_, ?_, ?_⟩
  · intro hsp
    constructor
    · intro hsh
      simp only [skillsCatalog_get_next_page_token, hsp]
      rcases hsh with h0 | hlt
      · rw [if_pos h0]
      · by_cases h0 : xs.length = 0
        · rw [if_pos h0]
        · rw [if_neg h0, if_pos hlt]
    · intro h0 hlt
      simp only [skillsCatalog_get_next_page_token, hsp]
      rw [if_neg h0, if_neg hlt]
  · intro hop
    constructor
    · intro hlt
      simp only [occupations_get_next_page_token, hop]
      rw [if_pos hlt]
    · intro hlt
      simp only [occupations_get_next_page_token, hop]
      rw [if_neg hlt]
  · intro htr
    simp [skillsCatalog_get_url_params, htr]

/-- Witness for C2 amended: a full 2-record page with limit 2 yields the
last record's id `"x123"`, and the next request carries it as
`cursor_key`. -/
theorem C2_next_cursor_amended_witness :
    skillsCatalog_get_next_page_token
      (some (JVal.jobj [("skills", JVal.jarr
        [JVal.jobj [("id", JVal.jstr "a1")],
         JVal.jobj [("id", JVal.jstr "x123")]])])) (some 2) =
      JVal.jstr "x123" ∧
    ("cursor_key", JVal.jstr "x123") ∈
      skillsCatalog_get_url_params ⟨none, none, none, some 2, none, none⟩
        (JVal.jstr "x123") := by
  have h := C2_next_cursor_amended
    (JVal.jobj [("skills", JVal.jarr
      [JVal.jobj [("id", JVal.jstr "a1")],
       JVal.jobj [("id", JVal.jstr "x123")]])]) (some 2)
    [JVal.jobj [("id", JVal.jstr "a1")], JVal.jobj [("id", JVal.jstr "x123")]]
    [] ⟨none, none, none, some 2, none, none⟩ (JVal.jstr "x123")
  constructor
  · have h2 := (h.2.1 rfl).2 (by decide) (by decide)
    rw [h2]
    rfl
  · exact h.2.2.2 rfl

/-- C4 counterexample: no occupation stream class is registered in
`STREAM_GROUPS`, so no selection — `"all"`, unset, or any named group —
ever runs the occupation hierarchy. -/
theorem C4_counterexample :
    "OccupationsStream" ∉ discover_streams ⟨none, none, none, none, none, none⟩ ∧
    "OccupationSkillsStream" ∉
      discover_streams ⟨none, none, none, none, none, some "all"⟩ ∧
    "OccupationDetailsStream" ∉
      discover_streams ⟨none, none, none, none, none, some "all"⟩ ∧
    (∀ g ∈ STREAM_GROUPS, "OccupationsStream" ∉ g.2) := by
  decide

/-- C4 amended: the registry holds the industry hierarchy (industries plus
the three per-category skills streams) and the standalone skills catalog;
selecting `"all"`, leaving the group unset or empty (case-insensitively)
runs every registered stream in registration order; a named group runs
exactly that group's streams; an unknown name runs nothing; no occupation
stream is registered. -/
theorem C4_stream_groups_amended :
    discover_streams ⟨none, none, none, none, none, none⟩ =
      ["IndustriesStream", "EmergingSkillsStream", "TrendingSkillsStream",
       "DecliningSkillsStream", "SkillsCatalogStream"] ∧
    discover_streams ⟨none, none, none, none, none, some "all"⟩ =
      ["IndustriesStream", "EmergingSkillsStream", "TrendingSkillsStream",
       "DecliningSkillsStream", "SkillsCatalogStream"] ∧
    discover_streams ⟨none, none, none, none, none, some ""⟩ =
      ["IndustriesStream", "EmergingSkillsStream", "TrendingSkillsStream",
       "DecliningSkillsStream", "SkillsCatalogStream"] ∧
    discover_streams ⟨none, none, none, none, none, some "ALL"⟩ =
      ["IndustriesStream", "EmergingSkillsStream", "TrendingSkillsStream",
       "DecliningSkillsStream", "SkillsCatalogStream"] ∧
    discover_streams ⟨none, none, none, none, none, some "industry_skills"⟩ =
      ["IndustriesStream", "EmergingSkillsStream", "TrendingSkillsStream",
       "DecliningSkillsStream"] ∧
    discover_streams ⟨none, none, none, none, none, some "skill_list"⟩ =
      ["SkillsCatalogStream"] ∧
    discover_streams ⟨none, none, none, none, none, some "occupations"⟩ = [] ∧
    "OccupationsStream" ∉
      discover_streams ⟨none, none, none, none, none, none⟩ := by
  decide

/-- C7 counterexample: with `api_base_url` and `api_key` configured but
`country_code` ABSENT, the skills-catalog stream builds its full request —
URL base, headers and parameters — with no configuration error, so a
request is issued while `country_code` is missing. -/
theorem C7_counterexample :
    url_base ⟨some "https://api.example.com", some "key1", none, none, none,
      none⟩ = Except.ok "https://api.example.com" ∧
    http_headers ⟨some "https://api.example.com", some "key1", none, none,
      none, none⟩ = Except.ok
      [("Content-Type", "application/json"), ("Accept", "application/json"),
       ("Authorization", "Bearer key1")] ∧
    skillsCatalog_get_url_params ⟨some "https://api.example.com", some "key1",
      none, none, none, none⟩ JVal.jnull = [("limit", JVal.jnum 50)] := by
  refine ⟨rfl, rfl, rfl⟩

/-- C7 amended: a missing `api_base_url` or a falsy `api_key` fails request
construction for every stream; a falsy `country_code` fails it for the
streams that use the base `get_url_params` (industries, industry skills,
occupations, occupation skills, occupation details); but the
skills-catalog stream overrides `get_url_params` without the check and
never raises a configuration error for its parameters. -/
theorem C7_config_errors_amended (cfg : Config) :
    (cfg.api_base_url = none →
      url_base cfg = Except.error "KeyError: api_base_url") ∧
    (pyTruthyStr cfg.api_key = false →
      http_headers cfg = Except.error "api_key is required in config") ∧
    (pyTruthyStr cfg.country_code = false →
      tapFaethmStream_get_url_params cfg =
        Except.error "country_code is required in config" ∧
      (∀ tok, occupations_get_url_params cfg tok =
        Except.error "country_code is required in config") ∧
      occupationDetails_get_url_params cfg =
        Except.error "country_code is required in config") ∧
    (∀ tok, skillsCatalog_get_url_params cfg tok =
      [("limit", JVal.jnum (effPageSize cfg.page_size))] ++
        (if pyTruthy tok then [("cursor_key", tok)] else [])) := by
  refine ⟨?_, ?_, ?_, fun tok => rfl⟩
  · intro h
    simp [url_base, h]
  · intro h
    match hk : cfg.api_key with
    | none => simp [http_headers, hk]
    | some k =>
        rw [hk] at h
        simp only [pyTruthyStr, Bool.not_eq_false'] at h
        simp [http_headers, hk, h]
  · intro h
    have hbase : tapFaethmStream_get_url_params cfg =
        Except.error "country_code is required in config" := by
      match hcc : cfg.country_code with
      | none => simp [tapFaethmStream_get_url_params, hcc]
      | some cc =>
          rw [hcc] at h
          simp only [pyTruthyStr, Bool.not_eq_false'] at h
          simp [tapFaethmStream_get_url_params, hcc, h]
    refine ⟨hbase, ?_, ?_⟩
    · intro tok
      simp [occupations_get_url_params, hbase]
    · simp [occupationDetails_get_url_params, hbase]

/-- Witness for C7 amended: the empty configuration fails everywhere, and
the skills-catalog parameters still build. -/
theorem C7_config_errors_amended_witness :
    url_base ⟨none, none, none, none, none, none⟩ =
      Except.error "KeyError: api_base_url" ∧
    http_headers ⟨none, none, none, none, none, none⟩ =
      Except.error "api_key is required in config" ∧
    tapFaethmStream_get_url_params ⟨none, none, none, none, none, none⟩ =
      Except.error "country_code is required in config" ∧
    skillsCatalog_get_url_params ⟨none, none, none, none, none, none⟩
      JVal.jnull = [("limit", JVal.jnum 50)] := by
  have h := C7_config_errors_amended ⟨none, none, none, none, none, none⟩
  exact ⟨h.1 rfl, h.2.1 rfl, (h.2.2.1 rfl).1, h.2.2.2 JVal.jnull⟩

/-- C8 (confirmed): a parent record whose `id` is absent (or bound to
`null`) or empty raises the missing-identifier `KeyError`, which the
`except` clause re-raises to the caller — no child context is produced and
no record is silently skipped. -/
theorem C8_missing_parent_id (record : JVal) (cfg : Config)
    (h : pyGet record "id" = JVal.jnull ∨ pyGet record "id" = JVal.jstr "") :
    industries_get_child_context record cfg =
      Except.error "KeyError: Industry Id is missing" ∧
    occupations_get_child_context record cfg =
      Except.error "KeyError: Occupation Id is missing" := by
  have ht : pyTruthy (pyGet record "id") = false := by
    rcases h with h | h <;> rw [h] <;> rfl
  constructor
  · simp [industries_get_child_context, ht]
  · simp [occupations_get_child_context, ht]

/-- Witness for C8: a parent record with no `id` key. -/
theorem C8_missing_parent_id_witness :
    industries_get_child_context (JVal.jobj [("name", JVal.jstr "Tech")])
      ⟨none, none, some "US", none, none, none⟩ =
      Except.error "KeyError: Industry Id is missing" :=
  (C8_missing_parent_id (JVal.jobj [("name", JVal.jstr "Tech")])
    ⟨none, none, some "US", none, none, none⟩ (Or.inl rfl)).1

theorem wrappedStartTimes_mem_le (delay : Nat) :
    ∀ (ds : List Nat) (t : Nat), ∀ x ∈ wrappedStartTimes delay t ds,
      t + delay ≤ x := by
  intro ds
  induction ds with
  | nil => intro t x hx; simp [wrappedStartTimes] at hx
  | cons d ds ih =>
      intro t x hx
      simp only [wrappedStartTimes, List.mem_cons] at hx
      rcases hx with rfl | hx
      · exact Nat.le_refl _
      · have := ih (t + delay + d) x hx
        omega

/-- C9 (confirmed): the request decorator sleeps `RATE_LIMIT_DELAY` before
every request, at every level of the hierarchy, so along the sequential
run timeline every request starts at least one delay after the clock
origin and any two consecutive request starts are spaced by at least
`RATE_LIMIT_DELAY` (= 1 second). -/
theorem C9_rate_gate_spacing (t : Nat) (ds : List Nat) :
    RATE_LIMIT_DELAY = 1 ∧
    (∀ x ∈ wrappedStartTimes RATE_LIMIT_DELAY t ds,
      t + RATE_LIMIT_DELAY ≤ x) ∧
    List.Chain' (fun a b => a + RATE_LIMIT_DELAY ≤ b)
      (wrappedStartTimes RATE_LIMIT_DELAY t ds) := by
  refine ⟨rfl, wrappedStartTimes_mem_le RATE_LIMIT_DELAY ds t, ?_⟩
  induction ds generalizing t with
  | nil => simp [wrappedStartTimes]
  | cons d ds ih =>
      cases ds with
      | nil => simp [wrappedStartTimes]
      | cons e es =>
          have htail := ih (t + RATE_LIMIT_DELAY + d)
          simp only [wrappedStartTimes] at htail ⊢
          exact List.Chain'.cons (by omega) htail

/-- Witness for C9: with durations `[5, 0, 2]` the second request (start 7)
is at least one delay after the origin, and consecutive starts `[1, 7, 8]`
are spaced by at least the delay. -/
theorem C9_rate_gate_spacing_witness :
    0 + RATE_LIMIT_DELAY ≤ 7 ∧
    List.Chain' (fun a b => a + RATE_LIMIT_DELAY ≤ b)
      (wrappedStartTimes RATE_LIMIT_DELAY 0 [5, 0, 2]) := by
  have h := C9_rate_gate_spacing 0 [5, 0, 2]
  exact ⟨h.2.1 7 (by decide), h.2.2⟩

/-- The generic details-stream warning can never equal the message the
spec claims (their lengths already differ), whatever the occupation id and
library error text are. -/
theorem detailsErr_ne_claimMsg (oid m : String) :
    "Error fetching details for occupation_id " ++ oid ++ ": " ++ m ≠
      "resource does not exist for this parent" := by
  intro h
  have hlen := congrArg String.length h
  simp only [String.length_append] at hlen
  have h1 : "Error fetching details for occupation_id ".length = 41 := rfl
  have h2 : ": ".length = 2 := rfl
  have h3 : "resource does not exist for this parent".length = 39 := rfl
  omega

/-- C5 counterexample: a 404 on the industry/occupation skills child fetch
is NOT recoverable — no handler exists in those streams, so the fatal API
error propagates; and the occupation-details stream, which does swallow
the 404, logs the generic fetch warning, not the claimed
"resource does not exist for this parent" message (which appears nowhere
in the code). -/
theorem C5_counterexample :
    skills_child_fetch 404 [⟨"s1", none⟩] =
      Except.error (ApiError.fatalStatus 404) ∧
    occupationDetails_get_records ⟨none, none, some "US", none, none, none⟩
      "O1" 404 [⟨"d1", none⟩] "404 Client Error" =
      ([], ["Error fetching details for occupation_id O1: 404 Client Error"]) ∧
    "resource does not exist for this parent" ∉
      (occupationDetails_get_records ⟨none, none, some "US", none, none, none⟩
        "O1" 404 [⟨"d1", none⟩] "404 Client Error").2 := by
  refine ⟨rfl, rfl, ?_⟩
  decide

/-- C5 amended: a 404 on an occupation-details child fetch yields zero
records plus the generic warning
`"Error fetching details for occupation_id {id}: {e}"` (never the claimed
distinct message) and the run continues; on the skills child fetches a 404
propagates as a fatal API error. -/
theorem C5_404_handling_amended (cfg : Config) (oid : String)
    (body : List RawDetail) (m : String) (sbody : List RawSkill) :
    occupationDetails_get_records cfg oid 404 body m =
      ([], ["Error fetching details for occupation_id " ++ oid ++ ": " ++ m]) ∧
    (∀ s ∈ (occupationDetails_get_records cfg oid 404 body m).2,
      s ≠ "resource does not exist for this parent") ∧
    skills_child_fetch 404 sbody = Except.error (ApiError.fatalStatus 404) := by
  have h404 : occupationDetails_get_records cfg oid 404 body m =
      ([], ["Error fetching details for occupation_id " ++ oid ++ ": " ++ m]) := by
    simp [occupationDetails_get_records, occupationDetails_validate_response,
      base_validate_response]
  refine ⟨h404, ?_, ?_⟩
  · intro s hs
    rw [h404] at hs
    simp only [List.mem_singleton] at hs
    subst hs
    exact detailsErr_ne_claimMsg oid m
  · simp [skills_child_fetch, base_validate_response]

/-- Witness for C5 amended at a concrete occupation and error text. -/
theorem C5_404_handling_amended_witness :
    occupationDetails_get_records ⟨none, none, some "US", none, none, none⟩
      "O2" 404 [] "Not Found" =
      ([], ["Error fetching details for occupation_id O2: Not Found"]) ∧
    "Error fetching details for occupation_id O2: Not Found" ≠
      "resource does not exist for this parent" := by
  have h := C5_404_handling_amended ⟨none, none, some "US", none, none, none⟩
    "O2" [] "Not Found" []
  exact ⟨h.1,
    h.2.1 "Error fetching details for occupation_id O2: Not Found" (by decide)⟩

/-- C6 counterexample: a 500 response on the occupation-details fetch is
converted by the stream's catch-all `except Exception` into zero records
plus a warning — exactly the conversion the claim says never happens. -/
theorem C6_counterexample :
    occupationDetails_get_records ⟨none, none, some "US", none, none, none⟩
      "O1" 500 [⟨"d1", none⟩] "500 Server Error" =
      ([], ["Error fetching details for occupation_id O1: 500 Server Error"]) := rfl

/-- C6 amended: a non-2xx status propagates as a fatal error from the
skills child fetches (which install no handler), but
`OccupationDetailsStream.get_records` catches every fetch error: any
non-2xx status other than 403 becomes zero records plus the generic
warning, and a 403 becomes zero records with only the validate-response
warning. -/
theorem C6_fatal_errors_amended (status : Nat)
    (h2 : ¬(200 ≤ status ∧ status < 300)) (cfg : Config) (oid : String)
    (body : List RawDetail) (m : String) (sbody : List RawSkill) :
    skills_child_fetch status sbody =
      Except.error (ApiError.fatalStatus status) ∧
    (status ≠ 403 → occupationDetails_get_records cfg oid status body m =
      ([], ["Error fetching details for occupation_id " ++ oid ++ ": " ++ m])) ∧
    (status = 403 → occupationDetails_get_records cfg oid status body m =
      ([], ["Received 403 Forbidden for occupation_id: " ++ oid ++
        ". Skipping..."])) := by
  refine ⟨?_, ?_, ?_⟩
  · simp [skills_child_fetch, base_validate_response, h2]
  · intro hne
    simp [occupationDetails_get_records, occupationDetails_validate_response,
      base_validate_response, hne, h2]
  · intro heq
    subst heq
    simp [occupationDetails_get_records, occupationDetails_validate_response]

/-- Witness for C6 amended at status 500. -/
theorem C6_fatal_errors_amended_witness :
    skills_child_fetch 500 [] = Except.error (ApiError.fatalStatus 500) ∧
    occupationDetails_get_records ⟨none, none, some "US", none, none, none⟩
      "O1" 500 [] "boom" =
      ([], ["Error fetching details for occupation_id O1: boom"]) := by
  have h := C6_fatal_errors_amended 500 (by decide)
    ⟨none, none, some "US", none, none, none⟩ "O1" [] "boom" []
  exact ⟨h.1, h.2.1 (by decide)⟩
